import Mathlib

/-!
Verification of the seqbank repository's core against its specification.

Strings and byte strings are modelled as `List Nat` of byte values (all data
handled by the codec is ASCII).  The embedded key-value engine (`speedict`
`Rdict`) is modelled as an association list from string keys to byte values.
-/

set_option autoImplicit false

/-! ## Sequence codec (`seqbank/transform.py`) -/

/-- The set of bytes kept by `seq_to_bytes` when `delete=True`.
`DELETE` in the source is the complement: `bytes(range(256)).translate(None, b'ACGTNacgtn')`,
so deletion removes exactly the bytes that are not in `ACGTNacgtn`.
Byte values: A=65 C=67 G=71 T=84 N=78, a=97 c=99 g=103 t=116 n=110. -/
def isVocab (b : Nat) : Bool :=
  b == 65 || b == 67 || b == 71 || b == 84 || b == 78 ||
  b == 97 || b == 99 || b == 103 || b == 116 || b == 110

/-- `TABLE` from the source: built from `vocab_to_int = {A:1, C:2, G:3, T:4, N:0}`,
with each lowercase letter mapped like its uppercase form and every other
byte left at the initial fill value `0`. -/
def TABLE (b : Nat) : Nat :=
  if b == 65 || b == 97 then 1
  else if b == 67 || b == 99 then 2
  else if b == 71 || b == 103 then 3
  else if b == 84 || b == 116 then 4
  else 0

/-- `REVERSE_TABLE` from the source: a 256-byte table initially all `\0`,
with `REVERSE_TABLE[value] = ord(char)` for the five vocab entries.
Bytes 5..255 therefore map to `0` (the NUL byte), not to `'N'`. -/
def REVERSE_TABLE (b : Nat) : Nat :=
  if b == 1 then 65
  else if b == 2 then 67
  else if b == 3 then 71
  else if b == 4 then 84
  else if b == 0 then 78
  else 0

/-- `seq_to_bytes(seq, delete)`: Python `bytes.translate(TABLE, DELETE)` first
removes the bytes listed in `DELETE` (i.e. keeps exactly `isVocab`), then maps
every remaining byte through `TABLE`. -/
def seq_to_bytes (seq : List Nat) (delete : Bool := true) : List Nat :=
  if delete then (seq.filter isVocab).map TABLE
  else seq.map TABLE

/-- `bytes_to_str(seq)`: `seq.translate(REVERSE_TABLE).decode("ascii")`. -/
def bytes_to_str (seq : List Nat) : List Nat :=
  seq.map REVERSE_TABLE

/-- Python `str.upper` on a single ASCII byte. -/
def toUpperByte (b : Nat) : Nat :=
  if 97 ≤ b ∧ b ≤ 122 then b - 32 else b

theorem reverse_table_table_of_vocab (b : Nat) (h : isVocab b = true) :
    REVERSE_TABLE (TABLE b) = toUpperByte b := by
  simp only [isVocab, Bool.or_eq_true, beq_iff_eq] at h
  rcases h with ((((((((rfl | rfl) | rfl) | rfl) | rfl) | rfl) | rfl) | rfl) | rfl) | rfl <;> rfl

/-- C1: for every sequence `s` containing only characters in
{A,C,G,T,N,a,c,g,t,n}, `bytes_to_str (seq_to_bytes s) = uppercase s`. -/
theorem decode_encode_roundtrip (s : List Nat) (h : ∀ b ∈ s, isVocab b = true) :
    bytes_to_str (seq_to_bytes s) = s.map toUpperByte := by
  unfold seq_to_bytes bytes_to_str
  rw [if_pos rfl, List.filter_eq_self.mpr h, List.map_map]
  exact List.map_congr_left fun b hb => reverse_table_table_of_vocab b (h b hb)

/-- C1 witness: the round-trip at the concrete input "aTcGn". -/
theorem decode_encode_roundtrip_witness :
    bytes_to_str (seq_to_bytes [97, 84, 99, 71, 110]) = [65, 84, 67, 71, 78] :=
  decode_encode_roundtrip [97, 84, 99, 71, 110] (by decide)

/-- C5: if `s` has at least one byte outside the vocab then encoding with
`delete=true` strictly shrinks the length and encoding with `delete=false`
preserves it. -/
theorem encode_length_outside_vocab (s : List Nat) (h : ∃ b ∈ s, isVocab b = false) :
    (seq_to_bytes s true).length < s.length ∧ (seq_to_bytes s false).length = s.length := by
  constructor
  · unfold seq_to_bytes
    rw [if_pos rfl, List.length_map]
    obtain ⟨b, hb, hv⟩ := h
    exact List.length_filter_lt_length_iff_exists.mpr ⟨b, hb, by simp [hv]⟩
  · simp [seq_to_bytes]

/-- C5 witness: the length facts at the concrete input "A-C". -/
theorem encode_length_outside_vocab_witness :
    (seq_to_bytes [65, 45, 67] true).length < ([65, 45, 67] : List Nat).length ∧
    (seq_to_bytes [65, 45, 67] false).length = ([65, 45, 67] : List Nat).length :=
  encode_length_outside_vocab [65, 45, 67] ⟨45, by decide, by decide⟩

/-- The decode table as the claim words it: {1→A, 2→C, 3→G, 4→T}, everything
else (including every byte above 4) to 'N'. -/
def claimedDecodeByte (b : Nat) : Nat :=
  if b = 1 then 65
  else if b = 2 then 67
  else if b = 3 then 71
  else if b = 4 then 84
  else 78

/-- C6 counterexample: byte 5 decodes to the NUL byte 0, not to 'N' (78). -/
theorem decode_out_of_range_counterexample :
    bytes_to_str [5] ≠ [claimedDecodeByte 5] ∧ bytes_to_str [5] = [0] := by
  constructor
  · decide
  · decide

/-- C6 amended: decoding maps bytes 0–4 by the inverse table
{1→A, 2→C, 3→G, 4→T, 0→N}, and every byte value outside 0–4 decodes to the
NUL byte 0 (not to 'N'). -/
theorem decode_byte_characterisation (bs : List Nat) :
    bytes_to_str bs = bs.map (fun b => if b ≤ 4 then claimedDecodeByte b else 0) := by
  unfold bytes_to_str
  apply List.map_congr_left
  intro b _
  by_cases h : b ≤ 4
  · interval_cases b <;> rfl
  · have h5 : 5 ≤ b := by omega
    simp only [if_neg h, REVERSE_TABLE]
    have h1 : (b == 1) = false := by simp; omega
    have h2 : (b == 2) = false := by simp; omega
    have h3 : (b == 3) = false := by simp; omega
    have h4 : (b == 4) = false := by simp; omega
    have h0 : (b == 0) = false := by simp; omega
    rw [h1, h2, h3, h4, h0]
    rfl

/-! ## Filter parser (`seqbank/utils.py`) -/

/-- Python whitespace characters stripped by `str.strip()`:
space, tab, newline, carriage return, vertical tab, form feed. -/
def isPySpace (c : Char) : Bool :=
  c == ' ' || c == '\t' || c == '\n' || c == '\r' || c == Char.ofNat 11 || c == Char.ofNat 12

/-- Python `str.strip()` on a character list: drop whitespace from both ends. -/
def pyStripChars (l : List Char) : List Char :=
  ((l.dropWhile isPySpace).reverse.dropWhile isPySpace).reverse

/-- Python `str.strip()`. -/
def pyStrip (s : String) : String :=
  String.mk (pyStripChars s.data)

/-- Python `str.split("\n")` on a character list: `"".split("\n") == [""]`,
and each newline separates a new (possibly empty) chunk. -/
def pySplitNlChars : List Char → List (List Char)
  | [] => [[]]
  | c :: rest =>
    match pySplitNlChars rest with
    | [] => [[]]
    | h :: t => if c = '\n' then [] :: h :: t else (c :: h) :: t

/-- Python `str.split("\n")`. -/
def pySplitNl (s : String) : List String :=
  (pySplitNlChars s.data).map String.mk

/-- The argument accepted by `parse_filter`: `None`, a list/set of strings, or
a `Path`; a `Path` argument is modelled by the text content of its file
(a `Path` object is always truthy in Python, so the falsy check never
collapses the file case). -/
inductive FilterSpec where
  | noFilter
  | coll (l : List String)
  | file (content : String)

/-- `parse_filter` from the source: `if not filter: return None`, then
`set(filter.read_text().strip().split("\n"))` for a `Path`, else `set(filter)`. -/
def parse_filter : FilterSpec → Option (Finset String)
  | .noFilter => none
  | .coll l => if l.isEmpty then none else some l.toFinset
  | .file content => some (pySplitNl (pyStrip content)).toFinset

/-- Python `str.rstrip()`: drop whitespace from the trailing end only.
This is the file-content treatment that the claim describes. -/
def pyStripTrailing (s : String) : String :=
  String.mk ((s.data.reverse.dropWhile isPySpace).reverse)

/-- The file case of `parse_filter` as the claim words it: the set of the
file's lines after stripping only trailing whitespace. -/
def claimedFileFilter (content : String) : Finset String :=
  (pySplitNl (pyStripTrailing content)).toFinset

/-- C7 counterexample: on the file content " x\ny" (a leading space), the code
strips leading whitespace as well, producing {"x","y"} rather than the claimed
{" x","y"}. -/
theorem parse_filter_file_counterexample :
    parse_filter (FilterSpec.file " x\ny") ≠ some (claimedFileFilter " x\ny") ∧
    parse_filter (FilterSpec.file " x\ny") = some ({"x", "y"} : Finset String) := by
  constructor
  · decide
  · decide

/-- C7 amended: `parse_filter` of `None` is `None`; of an empty collection is
`None` (collapsed to "no filtering", not an empty set); and of a file path is
the set of the file's lines after stripping leading and trailing whitespace
and splitting on newlines, e.g. a file with lines "x" and "y" yields {"x","y"}. -/
theorem parse_filter_characterisation :
    parse_filter FilterSpec.noFilter = none ∧
    parse_filter (FilterSpec.coll []) = none ∧
    (∀ content, parse_filter (FilterSpec.file content) =
      some (pySplitNl (pyStrip content)).toFinset) ∧
    parse_filter (FilterSpec.file "x\ny") = some ({"x", "y"} : Finset String) := by
  refine ⟨rfl, rfl, fun content => rfl, by decide⟩

/-! ## Store model (`seqbank/seqbank.py`)

The `Rdict` engine is modelled as an association list from string keys to
byte-list values, with `dbPut` overwriting an existing binding in place or
appending a new one. -/

/-- The persistent key-value pairs of one store. -/
def DB := List (String × List Nat)

/-- Engine read: the value bound to `k`, if any. -/
def dbLookup : DB → String → Option (List Nat)
  | [], _ => none
  | (k', v') :: rest, k => if k' = k then some v' else dbLookup rest k

/-- Engine write: unconditional overwrite (`self.file[key] = value`). -/
def dbPut : DB → String → List Nat → DB
  | [], k, v => [(k, v)]
  | (k', v') :: rest, k, v =>
    if k' = k then (k, v) :: rest else (k', v') :: dbPut rest k v

/-- `SeqBank.key`: the ASCII bytes of the accession, used verbatim. -/
def key (accession : String) : String := accession

/-- `SeqBank.key_url`: the reserved bookkeeping prefix plus the URL. -/
def key_url (url : String) : String := key ("/seqbank/url/" ++ url)

/-- The observable state of one `SeqBank` during ingestion: the store contents
plus a log of the URLs for which a download was attempted. -/
structure BankState where
  db : DB
  downloads : List String

/-- `SeqBank.add` for a raw sequence: store `seq_to_bytes(seq)` under the
accession's key. -/
def add (st : BankState) (accession : String) (seq : List Nat) : BankState :=
  { st with db := dbPut st.db (key accession) (seq_to_bytes seq) }

/-- `SeqBank.add_file` on an already-parsed record list (no filter, as called
from `add_url`): add each record in parse order. -/
def add_records (st : BankState) (recs : List (String × List Nat)) : BankState :=
  recs.foldl (fun s r => add s r.1 r.2) st

/-- `SeqBank.seen_url`: whether the URL's bookkeeping key is in the store. -/
def seen_url (st : BankState) (url : String) : Bool :=
  (dbLookup st.db (key_url url)).isSome

/-- `SeqBank.save_seen_url`: bind the URL's bookkeeping key to the current
timestamp bytes (passed in as `now`). -/
def save_seen_url (st : BankState) (url : String) (now : List Nat) : BankState :=
  { st with db := dbPut st.db (key_url url) now }

/-- The outcome of downloading and parsing one URL's file, the external
environment of `add_url`:
`fail` = the download (or the very start of parsing) raises;
`midfail recs` = parsing raises after the records `recs` were already added;
`ok recs` = download and ingestion succeed with records `recs`. -/
inductive FetchResult where
  | fail
  | midfail (recs : List (String × List Nat))
  | ok (recs : List (String × List Nat))

/-- `SeqBank.add_url`: return early if the bookkeeping key is present and
`force` is false; otherwise download (logging the attempt), ingest the file's
records, and only on full success write the bookkeeping entry.  Any failure is
caught and reported as `false`. -/
def add_url (env : String → FetchResult) (now : List Nat) (url : String)
    (force : Bool) (st : BankState) : Bool × BankState :=
  if (dbLookup st.db (key_url url)).isSome && !force then (false, st)
  else
    let st0 : BankState := { st with downloads := st.downloads ++ [url] }
    match env url with
    | .fail => (false, st0)
    | .midfail recs => (false, add_records st0 recs)
    | .ok recs => (true, save_seen_url (add_records st0 recs) url now)

/-- The URL-selection loop of `SeqBank.add_urls`: append each not-yet-seen URL,
and after every iteration break as soon as `max` is nonzero and the selection
has reached `max` entries. -/
def urls_to_add_go (st : BankState) (max : Nat) : List String → List String → List String
  | [], acc => acc
  | u :: rest, acc =>
    let acc' := if seen_url st u then acc else acc ++ [u]
    if max ≠ 0 ∧ max ≤ acc'.length then acc'
    else urls_to_add_go st max rest acc'

/-- The list `urls_to_add` computed by `SeqBank.add_urls` before dispatch. -/
def urls_to_add (st : BankState) (urls : List String) (max : Nat) : List String :=
  urls_to_add_go st max urls []

/-- `SeqBank.add_urls`: select the not-yet-seen URLs up to `max`, then run
`add_url` on each selected URL (the thread-pool dispatch is modelled as a
sequential fold; no later URL is ever dispatched). -/
def add_urls (env : String → FetchResult) (now : List Nat) (st : BankState)
    (urls : List String) (max : Nat) (force : Bool) : BankState :=
  (urls_to_add st urls max).foldl (fun s u => (add_url env now u force s).2) st

/-- `SeqBank.get_accessions`: every store key outside the reserved
`/seqbank/` namespace. -/
def get_accessions (st : BankState) : List String :=
  (st.db.map Prod.fst).filter (fun k => !k.startsWith "/seqbank/")

/-- The `accessions` argument of `SeqBank.export`: omitted (`None`), an
explicit collection, or a file of accessions modelled by its text content. -/
inductive AccSpec where
  | omitted
  | coll (l : List String)
  | file (content : String)

/-- The accession list `SeqBank.export` iterates over:
`accessions = accessions or self.get_accessions()` (an empty collection is
falsy and is replaced by the full accession set), then a string/`Path`
argument is read and split into lines. -/
def export_accessions (st : BankState) : AccSpec → List String
  | .omitted => get_accessions st
  | .coll l => if l.isEmpty then get_accessions st else l
  | .file content => pySplitNl (pyStrip content)

/-- `SeqBank.export` (named `export_bank` here since `export` is reserved in
Lean): one record per resolved accession, in order; fetching an
absent accession raises (`none`).  A record is the accession id together with
the decoded sequence text. -/
def export_bank (st : BankState) (spec : AccSpec) : Option (List (String × List Nat)) :=
  (export_accessions st spec).mapM
    (fun a => (dbLookup st.db (key a)).map (fun v => (a, bytes_to_str v)))

/-- Modelled from the spec: `SeqBank.add_sequence_from_file` is not present in
`src/seqbank/seqbank.py` (only its CLI caller in `seqbank/main.py` and its
tests exist).  Per the spec, the target file must contain exactly one record;
otherwise the call fails with the ambiguous-target domain error
(`SeqBankError`) and ingests nothing; with exactly one record, that record's
sequence is stored under the caller-supplied accession.  The parsed file is
modelled by its record list. -/
def add_sequence_from_file (st : BankState) (accession : String)
    (records : List (String × List Nat)) : Except String BankState :=
  match records with
  | [r] => .ok (add st accession r.2)
  | _ => .error "ambiguous-target"

/-! ## Containment probe (`SeqBank.__contains__`)

The underlying engine membership test can itself fail (for example when the
database cannot be opened); `checkFails` models that failure mode. -/

/-- A store as seen by `__contains__`: the set of present keys, plus whether
the underlying engine check raises. -/
structure StoreProbe where
  keys : List String
  checkFails : Bool

/-- The raw engine membership test: raises (`Except.error`) when the engine is
failing, otherwise reports whether the key is present. -/
def memberCheck (s : StoreProbe) (k : String) : Except String Bool :=
  if s.checkFails then .error "engine failure"
  else .ok (decide (k ∈ s.keys))

/-- `SeqBank.__contains__`: `try: return key in file; except: return False`. -/
def containsAccession (s : StoreProbe) (accession : String) : Bool :=
  match memberCheck s (key accession) with
  | .ok b => b
  | .error _ => false

/-! ## Store lemmas -/

theorem dbLookup_dbPut_same (db : DB) (k : String) (v : List Nat) :
    dbLookup (dbPut db k v) k = some v := by
  induction db with
  | nil => simp [dbPut, dbLookup]
  | cons p rest ih =>
    by_cases h : p.1 = k
    · simp [dbPut, h, dbLookup]
    · simpa [dbPut, h, dbLookup] using ih

theorem dbLookup_dbPut_other (db : DB) (k k' : String) (v : List Nat) (h : k ≠ k') :
    dbLookup (dbPut db k v) k' = dbLookup db k' := by
  induction db with
  | nil => simp [dbPut, dbLookup, h]
  | cons p rest ih =>
    by_cases hp : p.1 = k
    · simp [dbPut, hp, dbLookup, h]
    · simp [dbPut, hp, dbLookup, ih]

theorem dbLookup_dbPut_isSome (db : DB) (k k' : String) (v : List Nat)
    (h : (dbLookup db k').isSome = true) :
    (dbLookup (dbPut db k v) k').isSome = true := by
  by_cases hk : k = k'
  · subst hk; simp [dbLookup_dbPut_same]
  · rwa [dbLookup_dbPut_other db k k' v hk]

theorem add_records_downloads (recs : List (String × List Nat)) :
    ∀ st : BankState, (add_records st recs).downloads = st.downloads := by
  induction recs with
  | nil => intro st; rfl
  | cons r rest ih => intro st; simpa [add_records, add] using ih _

theorem add_records_db_untouched (recs : List (String × List Nat)) (k : String)
    (h : ∀ r ∈ recs, key r.1 ≠ k) :
    ∀ st : BankState, dbLookup (add_records st recs).db k = dbLookup st.db k := by
  induction recs with
  | nil => intro st; rfl
  | cons r rest ih =>
    intro st
    have step : dbLookup (add st r.1 r.2).db k = dbLookup st.db k :=
      dbLookup_dbPut_other st.db (key r.1) k _ (h r (List.mem_cons_self r rest))
    have := ih (fun x hx => h x (List.mem_cons_of_mem r hx)) (add st r.1 r.2)
    simpa [add_records] using this.trans step

theorem add_records_isSome (recs : List (String × List Nat)) (k : String) :
    ∀ st : BankState, (dbLookup st.db k).isSome = true →
      (dbLookup (add_records st recs).db k).isSome = true := by
  induction recs with
  | nil => intro st h; exact h
  | cons r rest ih =>
    intro st h
    exact ih (add st r.1 r.2) (dbLookup_dbPut_isSome st.db (key r.1) k _ h)

theorem add_records_mem (recs : List (String × List Nat)) (r : String × List Nat)
    (hr : r ∈ recs) :
    ∀ st : BankState, (dbLookup (add_records st recs).db (key r.1)).isSome = true := by
  induction recs with
  | nil => cases hr
  | cons r0 rest ih =>
    intro st
    rcases List.mem_cons.mp hr with h | h
    · subst h
      exact add_records_isSome rest (key r.1) (add st r.1 r.2)
        (by simp [add, dbLookup_dbPut_same])
    · exact ih h (add st r0.1 r0.2)

/-! Branch equations for `add_url`. -/

theorem add_url_eq_seen (env : String → FetchResult) (now : List Nat) (url : String)
    (st : BankState) (h : (dbLookup st.db (key_url url)).isSome = true) :
    add_url env now url false st = (false, st) := by
  simp [add_url, h]

theorem add_url_eq_fail (env : String → FetchResult) (now : List Nat) (url : String)
    (force : Bool) (st : BankState)
    (hc : ((dbLookup st.db (key_url url)).isSome && !force) = false)
    (henv : env url = FetchResult.fail) :
    add_url env now url force st = (false, { st with downloads := st.downloads ++ [url] }) := by
  unfold add_url
  rw [if_neg (by simp [hc]), henv]

theorem add_url_eq_midfail (env : String → FetchResult) (now : List Nat) (url : String)
    (force : Bool) (st : BankState) (recs : List (String × List Nat))
    (hc : ((dbLookup st.db (key_url url)).isSome && !force) = false)
    (henv : env url = FetchResult.midfail recs) :
    add_url env now url force st =
      (false, add_records { st with downloads := st.downloads ++ [url] } recs) := by
  unfold add_url
  rw [if_neg (by simp [hc]), henv]

theorem add_url_eq_ok (env : String → FetchResult) (now : List Nat) (url : String)
    (force : Bool) (st : BankState) (recs : List (String × List Nat))
    (hc : ((dbLookup st.db (key_url url)).isSome && !force) = false)
    (henv : env url = FetchResult.ok recs) :
    add_url env now url force st =
      (true, save_seen_url (add_records { st with downloads := st.downloads ++ [url] } recs)
        url now) := by
  unfold add_url
  rw [if_neg (by simp [hc]), henv]

theorem add_url_true_marker (env : String → FetchResult) (now : List Nat) (url : String)
    (force : Bool) (st : BankState)
    (h : (add_url env now url force st).1 = true) :
    (dbLookup (add_url env now url force st).2.db (key_url url)).isSome = true := by
  by_cases hc : ((dbLookup st.db (key_url url)).isSome && !force) = true
  · exfalso
    unfold add_url at h
    rw [if_pos hc] at h
    cases h
  · rw [Bool.not_eq_true] at hc
    cases henv : env url with
    | fail => rw [add_url_eq_fail env now url force st hc henv] at h; cases h
    | midfail recs => rw [add_url_eq_midfail env now url force st recs hc henv] at h; cases h
    | ok recs =>
      rw [add_url_eq_ok env now url force st recs hc henv]
      simp [save_seen_url, dbLookup_dbPut_same]

/-- C2: calling `add_url` twice on the same URL without `force` performs the
download and ingestion once: when the first call succeeds, the second call
returns `False` and leaves the state (store contents and download log)
completely unchanged, whatever the second call's environment would return. -/
theorem add_url_idempotent (env env2 : String → FetchResult) (now now2 : List Nat)
    (url : String) (st : BankState)
    (h : (add_url env now url false st).1 = true) :
    add_url env2 now2 url false (add_url env now url false st).2
      = (false, (add_url env now url false st).2) :=
  add_url_eq_seen env2 now2 url _ (add_url_true_marker env now url false st h)

/-- C2 witness: a URL added into an empty bank is skipped the second time. -/
theorem add_url_idempotent_witness :
    add_url (fun _ => FetchResult.ok [("A", [65])]) [49] "u" false
        (add_url (fun _ => FetchResult.ok [("A", [65])]) [48] "u" false ⟨[], []⟩).2
      = (false, (add_url (fun _ => FetchResult.ok [("A", [65])]) [48] "u" false ⟨[], []⟩).2) :=
  add_url_idempotent (fun _ => FetchResult.ok [("A", [65])])
    (fun _ => FetchResult.ok [("A", [65])]) [48] [49] "u" ⟨[], []⟩ (by decide)

/-- C3: starting from a state where the URL's bookkeeping key is absent (and
assuming no record accession collides with the reserved URL key), the key is
present after `add_url` only if the call returned `True`, the download and
parse fully succeeded, and every record of the downloaded file is committed in
the resulting store. -/
theorem add_url_marker_only_on_success (env : String → FetchResult) (now : List Nat)
    (url : String) (force : Bool) (st : BankState)
    (h0 : dbLookup st.db (key_url url) = none)
    (hacc : ∀ recs, (env url = FetchResult.midfail recs ∨ env url = FetchResult.ok recs) →
      ∀ r ∈ recs, key r.1 ≠ key_url url)
    (hp : (dbLookup (add_url env now url force st).2.db (key_url url)).isSome = true) :
    (add_url env now url force st).1 = true ∧
    ∃ recs, env url = FetchResult.ok recs ∧
      ∀ r ∈ recs, (dbLookup (add_url env now url force st).2.db (key r.1)).isSome = true := by
  have hc : ((dbLookup st.db (key_url url)).isSome && !force) = false := by
    simp [h0]
  cases henv : env url with
  | fail =>
    rw [add_url_eq_fail env now url force st hc henv] at hp
    simp only at hp
    rw [h0] at hp
    cases hp
  | midfail recs =>
    rw [add_url_eq_midfail env now url force st recs hc henv] at hp
    have huntouched := add_records_db_untouched recs (key_url url)
      (hacc recs (Or.inl henv)) { st with downloads := st.downloads ++ [url] }
    simp only at hp
    rw [huntouched] at hp
    simp only at hp
    rw [h0] at hp
    cases hp
  | ok recs =>
    rw [add_url_eq_ok env now url force st recs hc henv]
    refine ⟨rfl, recs, rfl, fun r hr => ?_⟩
    have hne : key r.1 ≠ key_url url := hacc recs (Or.inr henv) r hr
    simp only [save_seen_url]
    rw [dbLookup_dbPut_other _ _ _ _ (fun e => hne e.symm)]
    exact add_records_mem recs r hr { st with downloads := st.downloads ++ [url] }

/-- C3 witness: a successful fetch of one record leaves the marker present,
the call returning `True`, and the record committed. -/
theorem add_url_marker_only_on_success_witness :
    (add_url (fun _ => FetchResult.ok [("A", [65])]) [48] "u" false ⟨[], []⟩).1 = true ∧
    ∃ recs, (fun _ => FetchResult.ok [("A", [65])]) "u" = FetchResult.ok recs ∧
      ∀ r ∈ recs,
        (dbLookup (add_url (fun _ => FetchResult.ok [("A", [65])]) [48] "u" false
          ⟨[], []⟩).2.db (key r.1)).isSome = true := by
  refine add_url_marker_only_on_success _ [48] "u" false ⟨[], []⟩ rfl ?_ (by decide)
  intro recs h r hr
  rcases h with h | h
  · exact FetchResult.noConfusion h
  · have hrecs : [("A", ([65] : List Nat))] = recs := by injection h
    subst hrecs
    have hr' : r = ("A", ([65] : List Nat)) := by simpa using hr
    subst hr'
    decide

/-! ## Batch selection (`SeqBank.add_urls`) -/

theorem urls_to_add_go_eq (st : BankState) (max : Nat) (hmax : max ≠ 0) :
    ∀ (urls : List String) (acc : List String), acc.length < max →
      urls_to_add_go st max urls acc =
        acc ++ (urls.filter (fun u => !seen_url st u)).take (max - acc.length) := by
  intro urls
  induction urls with
  | nil => intro acc _; simp [urls_to_add_go]
  | cons u rest ih =>
    intro acc hacc
    by_cases hs : seen_url st u = true
    · have hcond : ¬(max ≠ 0 ∧ max ≤ acc.length) := by omega
      simp only [urls_to_add_go, hs, if_true, if_neg hcond]
      rw [ih acc hacc]
      simp [hs]
    · rw [Bool.not_eq_true] at hs
      simp only [urls_to_add_go, hs, Bool.false_eq_true, if_false]
      by_cases hfull : max ≤ (acc ++ [u]).length
      · have hcond : max ≠ 0 ∧ max ≤ (acc ++ [u]).length := ⟨hmax, hfull⟩
        rw [if_pos hcond]
        have hm : max - acc.length = 1 := by
          simp only [List.length_append, List.length_singleton] at hfull
          omega
        simp [hs, hm]
      · rw [if_neg (by tauto)]
        have hlen : (acc ++ [u]).length < max := by omega
        rw [ih (acc ++ [u]) hlen]
        have hm : max - acc.length = (max - (acc ++ [u]).length) + 1 := by
          simp only [List.length_append, List.length_singleton]
          simp only [List.length_append, List.length_singleton] at hfull
          omega
        simp [hs, hm]

theorem add_url_downloads_sub (env : String → FetchResult) (now : List Nat)
    (url : String) (force : Bool) (st : BankState) :
    ∀ u ∈ (add_url env now url force st).2.downloads, u ∈ st.downloads ∨ u = url := by
  intro u hu
  by_cases hc : ((dbLookup st.db (key_url url)).isSome && !force) = true
  · left
    unfold add_url at hu
    rw [if_pos hc] at hu
    exact hu
  · rw [Bool.not_eq_true] at hc
    cases henv : env url with
    | fail =>
      rw [add_url_eq_fail env now url force st hc henv] at hu
      simpa using List.mem_append.mp hu
    | midfail recs =>
      rw [add_url_eq_midfail env now url force st recs hc henv] at hu
      simp only [add_records_downloads] at hu
      simpa using List.mem_append.mp hu
    | ok recs =>
      rw [add_url_eq_ok env now url force st recs hc henv] at hu
      simp only [save_seen_url, add_records_downloads] at hu
      simpa using List.mem_append.mp hu

theorem foldl_add_url_downloads (env : String → FetchResult) (now : List Nat)
    (force : Bool) :
    ∀ (l : List String) (st : BankState) (u : String),
      u ∈ (l.foldl (fun s v => (add_url env now v force s).2) st).downloads →
        u ∈ st.downloads ∨ u ∈ l := by
  intro l
  induction l with
  | nil => intro st u hu; exact Or.inl hu
  | cons v rest ih =>
    intro st u hu
    rcases ih (add_url env now v force st).2 u (by simpa using hu) with h | h
    · rcases add_url_downloads_sub env now v force st u h with h' | h'
      · exact Or.inl h'
      · exact Or.inr (by simp [h'])
    · exact Or.inr (List.mem_cons_of_mem v h)

/-- C8: with a positive cap `max`, `add_urls` schedules exactly the first
`max` URLs of the input list whose bookkeeping key is absent (already-seen
URLs are skipped before scheduling), and no download is ever attempted for a
URL outside that selection. -/
theorem add_urls_selection (env : String → FetchResult) (now : List Nat)
    (st : BankState) (urls : List String) (max : Nat) (force : Bool)
    (h : 0 < max) :
    urls_to_add st urls max = (urls.filter (fun u => !seen_url st u)).take max ∧
    ∀ u, u ∈ (add_urls env now st urls max force).downloads →
      u ∈ st.downloads ∨ u ∈ urls_to_add st urls max := by
  constructor
  · have := urls_to_add_go_eq st max (by omega) urls [] (by simpa using h)
    simpa [urls_to_add] using this
  · intro u hu
    exact foldl_add_url_downloads env now force (urls_to_add st urls max) st u hu

/-- C8 witness: with the URL "b" already seen, max 2 selects the first two
unseen URLs of ["a","b","c","d"]. -/
theorem add_urls_selection_witness :
    urls_to_add ⟨[("/seqbank/url/b", [48])], []⟩ ["a", "b", "c", "d"] 2 =
      ((["a", "b", "c", "d"] : List String).filter
        (fun u => !seen_url ⟨[("/seqbank/url/b", [48])], []⟩ u)).take 2 :=
  (add_urls_selection (fun _ => FetchResult.fail) [48] ⟨[("/seqbank/url/b", [48])], []⟩
    ["a", "b", "c", "d"] 2 false (by decide)).1

/-- C9: the containment check never raises by construction (it is a total
boolean function) and it returns `True` exactly when the underlying engine
check succeeds and reports the key present; any engine failure or an absent
key yields `False`. -/
theorem contains_false_on_failure (s : StoreProbe) (a : String) :
    containsAccession s a = true ↔ s.checkFails = false ∧ key a ∈ s.keys := by
  unfold containsAccession memberCheck
  cases h : s.checkFails with
  | true => simp
  | false => simp

/-- C10: exporting with an empty (but non-`None`) accession collection exports
every accession in the store, exactly as if the argument had been omitted. -/
theorem export_empty_collection (st : BankState) :
    export_bank st (AccSpec.coll []) = export_bank st AccSpec.omitted ∧
    export_accessions st (AccSpec.coll []) = get_accessions st :=
  ⟨rfl, rfl⟩

/-- C4: `add_sequence_from_file` on a file with more than one record fails
with the ambiguous-target domain error (ingesting nothing), and on a file with
exactly one record stores that record's sequence under the given accession. -/
theorem add_sequence_from_file_single_record (st : BankState) (a : String)
    (recs : List (String × List Nat)) :
    (1 < recs.length → add_sequence_from_file st a recs = Except.error "ambiguous-target") ∧
    (∀ r, recs = [r] →
      add_sequence_from_file st a recs = Except.ok (add st a r.2) ∧
      dbLookup (add st a r.2).db (key a) = some (seq_to_bytes r.2)) := by
  constructor
  · intro hlen
    match recs, hlen with
    | r1 :: r2 :: t, _ => rfl
  · intro r hrecs
    subst hrecs
    exact ⟨rfl, by simp [add, dbLookup_dbPut_same]⟩

/-- C4 witness: two records fail with the ambiguous-target error; one record
is stored under the requested accession. -/
theorem add_sequence_from_file_witness :
    add_sequence_from_file ⟨[], []⟩ "acc" [("r1", [65]), ("r2", [67])] =
      Except.error "ambiguous-target" ∧
    add_sequence_from_file ⟨[], []⟩ "acc" [("r1", [65])] =
      Except.ok (add ⟨[], []⟩ "acc" [65]) :=
  ⟨(add_sequence_from_file_single_record ⟨[], []⟩ "acc" [("r1", [65]), ("r2", [67])]).1
      (by decide),
   ((add_sequence_from_file_single_record ⟨[], []⟩ "acc" [("r1", [65])]).2
      ("r1", [65]) rfl).1⟩
